import Mathlib

/-!
Verification of the readiness-driven echo server / echo client core
(the `selectors`-based demo: `selectors_echo_server.py` and
`selectors_echo_client.py`).

Bytes are modelled as natural numbers, byte strings as lists of them.
The two demo scripts are shallowly embedded: the server's `read` and
`accept` callbacks and its dispatcher loop become state-transition
functions on an explicit server state, and the client's inline
`EVENT_READ` / `EVENT_WRITE` branches become state-transition functions
on an explicit client state.  The I/O environment (which channels become
ready, and what `recv` returns) is supplied as an explicit list of
events; the `while keep_running` loop becomes a guarded fold over that
list.  Calls to `sendall` are recorded in an output log, and handler
invocations of the server dispatcher are recorded in an invocation log,
so that properties about the byte stream written to the socket and about
which handlers run can be stated directly.
-/

/-- Byte strings (`bytes` values) are lists of natural numbers. -/
abbrev ByteSeq := List Nat

/-- selectors.EVENT_READ. -/
def EVENT_READ : Nat := 1

/-- selectors.EVENT_WRITE. -/
def EVENT_WRITE : Nat := 2

/-- Test `mask & e` as Python does (nonzero means the bit is set). -/
def hasEvent (mask e : Nat) : Bool := mask.land e != 0

/-- First element of the client demo's `outgoing` list: b'It will be repeated.'. -/
def msg_repeated : ByteSeq := "It will be repeated.".toList.map Char.toNat

/-- Second element of the client demo's `outgoing` list: b'This is the message.  '. -/
def msg_message : ByteSeq := "This is the message.  ".toList.map Char.toNat

/-- State of the echo client (`selectors_echo_client.py`): the module-level
variables `keep_running`, `outgoing`, `bytes_sent`, `bytes_received`, the
interest mask currently registered with the selector for the one socket,
and a log of the byte strings passed to `sock.sendall`. -/
structure ClientState where
  keepRunning : Bool
  outgoing : List ByteSeq
  bytesSent : Nat
  bytesReceived : Nat
  interest : Nat
  sentLog : List ByteSeq
deriving Repr, DecidableEq

/-- Client `EVENT_READ` branch: `data = connection.recv(1024)`; if non-empty,
`bytes_received += len(data)`; then
`keep_running = not (data or (bytes_received and (bytes_received == bytes_sent)))`
(Python truthiness: `data` is truthy iff non-empty, `bytes_received` truthy
iff nonzero). -/
def readBranch (st : ClientState) (data : ByteSeq) : ClientState :=
  let br := if data.isEmpty then st.bytesReceived else st.bytesReceived + data.length
  { st with
    bytesReceived := br,
    keepRunning := !(!data.isEmpty || (br != 0 && br == st.bytesSent)) }

/-- Client `EVENT_WRITE` branch: if `outgoing` is empty,
`mysel.modify(sock, selectors.EVENT_READ)`; otherwise
`next_msg = outgoing.pop()` (removes the LAST element),
`sock.sendall(next_msg)`, `bytes_sent += len(next_msg)`. -/
def writeBranch (st : ClientState) : ClientState :=
  match st.outgoing.getLast? with
  | none => { st with interest := EVENT_READ }
  | some msg =>
    { st with
      outgoing := st.outgoing.dropLast,
      sentLog := st.sentLog ++ [msg],
      bytesSent := st.bytesSent + msg.length }

/-- One iteration of the client's per-event body: the `EVENT_READ` branch
runs first (when its bit is in the mask), then the `EVENT_WRITE` branch
(when its bit is in the mask), exactly as the two successive `if`
statements in the source. -/
def clientHandleEvent (st : ClientState) (mask : Nat) (data : ByteSeq) : ClientState :=
  let st1 := if hasEvent mask EVENT_READ then readBranch st data else st
  if hasEvent mask EVENT_WRITE then writeBranch st1 else st1

/-- Initial client state: `keep_running = True`, the two-message `outgoing`
list, both counters zero, and the socket registered with
`EVENT_READ | EVENT_WRITE` interest. -/
def clientInit : ClientState :=
  { keepRunning := true,
    outgoing := [msg_repeated, msg_message],
    bytesSent := 0,
    bytesReceived := 0,
    interest := EVENT_READ.lor EVENT_WRITE,
    sentLog := [] }

/-- One ready event delivered to the client: the observed mask and the
bytes `recv` returns if the read branch runs. -/
structure CEvent where
  mask : Nat
  data : ByteSeq
deriving Repr, DecidableEq

/-- The client's `while keep_running` dispatcher loop over a schedule of
ready events: each event is handled only while the flag is still true. -/
def clientRun (st : ClientState) (evts : List CEvent) : ClientState :=
  evts.foldl (fun s e => if s.keepRunning then clientHandleEvent s e.mask e.data else s) st

/-- State of the echo server (`selectors_echo_server.py`): the selector's
set of registered channels (channel 0 is the listening socket, registered
with the `accept` callback; every other registered channel is an accepted
connection, registered with the `read` callback), a fresh-id counter for
accepted connections, the channels that have been closed, the
`keep_running` flag, a log of the `connection.sendall(data)` echoes, and a
log of the handler invocations performed by the dispatcher loop. -/
structure SrvState where
  registry : List Nat
  nextConn : Nat
  closed : List Nat
  keepRunning : Bool
  echoLog : List (Nat × ByteSeq)
  invocations : List (Nat × ByteSeq)
deriving Repr, DecidableEq

/-- Server `read` callback: `data = connection.recv(1024)`; if non-empty,
`connection.sendall(data)`; otherwise `mysel.unregister(connection)`,
`connection.close()`, `keep_running = False`. -/
def srvRead (st : SrvState) (c : Nat) (data : ByteSeq) : SrvState :=
  if data.isEmpty then
    { st with
      registry := st.registry.erase c,
      closed := st.closed ++ [c],
      keepRunning := false }
  else
    { st with echoLog := st.echoLog ++ [(c, data)] }

/-- Server `accept` callback: `sock.accept()` yields a fresh connection
channel, which is set non-blocking and registered for `EVENT_READ` with
the `read` callback. -/
def srvAccept (st : SrvState) : SrvState :=
  { st with
    registry := st.registry ++ [st.nextConn],
    nextConn := st.nextConn + 1 }

/-- One dispatch of the server loop body for a ready channel: the selector
only reports registered channels, the key's stored callback is invoked
(`accept` for the listening socket, `read` for a connection), and the
invocation is logged. -/
def srvDispatch (st : SrvState) (c : Nat) (data : ByteSeq) : SrvState :=
  if c ∈ st.registry then
    let st1 := { st with invocations := st.invocations ++ [(c, data)] }
    if c = 0 then srvAccept st1 else srvRead st1 c data
  else st

/-- Initial server state: only the listening socket (channel 0) is
registered, `keep_running = True`. -/
def srvInit : SrvState :=
  { registry := [0],
    nextConn := 1,
    closed := [],
    keepRunning := true,
    echoLog := [],
    invocations := [] }

/-- The server's `while keep_running` dispatcher loop over a schedule of
ready events (channel, recv result). -/
def srvRun (st : SrvState) (evts : List (Nat × ByteSeq)) : SrvState :=
  evts.foldl (fun s e => if s.keepRunning then srvDispatch s e.1 e.2 else s) st

/-- Modelled from the spec: the demos use Python's `selectors` module, whose
registry implementation is not part of this repository's sources; the spec
describes the Selector component's `register` / `modify` / `unregister`
operations and their `DuplicateRegistration` / `NotRegistered` failures. -/
inductive SelErr where
  | DuplicateRegistration
  | NotRegistered
deriving Repr, DecidableEq

/-- Modelled from the spec: the Selector's registration table, a mapping
from monitored channels to (interest-mask, opaque-payload); payloads are
irrelevant to the claims proved here and are elided. -/
structure SelReg (α : Type) where
  table : List (α × Nat)
deriving Repr, DecidableEq

/-- Whether a channel is currently registered. -/
def SelReg.isRegistered [DecidableEq α] (s : SelReg α) (c : α) : Bool :=
  s.table.any (fun p => p.1 = c)

/-- Modelled from the spec: `register(channel, interest_mask, payload)` fails
with `DuplicateRegistration` if the channel is already registered, and
otherwise adds the registration. -/
def SelReg.register [DecidableEq α] (s : SelReg α) (c : α) (m : Nat) :
    Except SelErr (SelReg α) :=
  if s.isRegistered c then .error .DuplicateRegistration
  else .ok ⟨(c, m) :: s.table⟩

/-- Modelled from the spec: `modify(channel, interest_mask, payload)` fails
with `NotRegistered` if the channel is absent, and otherwise atomically
replaces its mask. -/
def SelReg.modify [DecidableEq α] (s : SelReg α) (c : α) (m : Nat) :
    Except SelErr (SelReg α) :=
  if s.isRegistered c then
    .ok ⟨s.table.map (fun p => if p.1 = c then (c, m) else p)⟩
  else .error .NotRegistered

/-- Modelled from the spec: `unregister(channel)` removes the registration
and fails with `NotRegistered` if the channel is absent. -/
def SelReg.unregister [DecidableEq α] (s : SelReg α) (c : α) :
    Except SelErr (SelReg α) :=
  if s.isRegistered c then
    .ok ⟨s.table.filter (fun p => !(p.1 = c : Bool))⟩
  else .error .NotRegistered

/-- One Selector operation, for talking about sequences of calls. -/
inductive SelOp (α : Type) where
  | regOp (c : α) (m : Nat)
  | modOp (c : α) (m : Nat)
  | unregOp (c : α)
deriving Repr, DecidableEq

/-- Apply one operation; a failing call (a fatal programmer error per the
spec) leaves the table unchanged. -/
def SelReg.applyOp [DecidableEq α] (s : SelReg α) (op : SelOp α) : SelReg α :=
  match op with
  | .regOp c m => match s.register c m with
    | .ok s1 => s1
    | .error _ => s
  | .modOp c m => match s.modify c m with
    | .ok s1 => s1
    | .error _ => s
  | .unregOp c => match s.unregister c with
    | .ok s1 => s1
    | .error _ => s

/-- Apply a sequence of operations in order. -/
def SelReg.applyOps [DecidableEq α] (s : SelReg α) (ops : List (SelOp α)) : SelReg α :=
  ops.foldl SelReg.applyOp s

/-! Basic facts about the embedded loops. -/

theorem readBranch_outgoing (st : ClientState) (d : ByteSeq) :
    (readBranch st d).outgoing = st.outgoing := rfl

theorem readBranch_sentLog (st : ClientState) (d : ByteSeq) :
    (readBranch st d).sentLog = st.sentLog := rfl

theorem readBranch_interest (st : ClientState) (d : ByteSeq) :
    (readBranch st d).interest = st.interest := rfl

theorem readBranch_bytesSent (st : ClientState) (d : ByteSeq) :
    (readBranch st d).bytesSent = st.bytesSent := rfl

theorem writeBranch_keepRunning (st : ClientState) :
    (writeBranch st).keepRunning = st.keepRunning := by
  unfold writeBranch; split <;> rfl

theorem writeBranch_bytesReceived (st : ClientState) :
    (writeBranch st).bytesReceived = st.bytesReceived := by
  unfold writeBranch; split <;> rfl

theorem clientRun_nil (st : ClientState) : clientRun st [] = st := rfl

theorem clientRun_cons (st : ClientState) (e : CEvent) (evts : List CEvent) :
    clientRun st (e :: evts)
      = clientRun (if st.keepRunning then clientHandleEvent st e.mask e.data else st) evts := rfl

theorem clientRun_append (st : ClientState) (l1 l2 : List CEvent) :
    clientRun st (l1 ++ l2) = clientRun (clientRun st l1) l2 := by
  simp [clientRun, List.foldl_append]

theorem clientRun_halted (st : ClientState) (evts : List CEvent)
    (h : st.keepRunning = false) : clientRun st evts = st := by
  induction evts with
  | nil => rfl
  | cons e evts ih => rw [clientRun_cons, h]; simpa using ih

theorem srvRun_nil (st : SrvState) : srvRun st [] = st := rfl

theorem srvRun_cons (st : SrvState) (e : Nat × ByteSeq) (evts : List (Nat × ByteSeq)) :
    srvRun st (e :: evts)
      = srvRun (if st.keepRunning then srvDispatch st e.1 e.2 else st) evts := rfl

theorem srvRun_append (st : SrvState) (l1 l2 : List (Nat × ByteSeq)) :
    srvRun st (l1 ++ l2) = srvRun (srvRun st l1) l2 := by
  simp [srvRun, List.foldl_append]

theorem srvRun_halted (st : SrvState) (evts : List (Nat × ByteSeq))
    (h : st.keepRunning = false) : srvRun st evts = st := by
  induction evts with
  | nil => rfl
  | cons e evts ih => rw [srvRun_cons, h]; simpa using ih

/-- A dispatch of a non-empty read on a registered connection appends the
echo of exactly that data and changes nothing else but the invocation log. -/
theorem srvDispatch_data (st : SrvState) (c : Nat) (d : ByteSeq)
    (hreg : c ∈ st.registry) (hc : c ≠ 0) (hd : d ≠ []) :
    srvDispatch st c d
      = { st with
          invocations := st.invocations ++ [(c, d)],
          echoLog := st.echoLog ++ [(c, d)] } := by
  cases d with
  | nil => exact absurd rfl hd
  | cons b bs => simp [srvDispatch, hreg, hc, srvRead]

/-- A dispatch of an empty read on a registered connection unregisters it,
closes it, clears the keep-running flag and leaves the echo log alone. -/
theorem srvDispatch_eof (st : SrvState) (c : Nat)
    (hreg : c ∈ st.registry) (hc : c ≠ 0) :
    srvDispatch st c []
      = { st with
          invocations := st.invocations ++ [(c, [])],
          registry := st.registry.erase c,
          closed := st.closed ++ [c],
          keepRunning := false } := by
  simp [srvDispatch, hreg, hc, srvRead]

/-- Running the server loop over a sequence of non-empty reads on a live,
registered connection echoes exactly those reads, in order, keeping the
connection registered and the loop running. -/
theorem srv_echo_run (chunks : List ByteSeq) : ∀ st : SrvState, ∀ c : Nat,
    st.keepRunning = true → c ∈ st.registry → c ≠ 0 → (∀ d ∈ chunks, d ≠ []) →
    (srvRun st (chunks.map (fun d => (c, d)))).echoLog = st.echoLog ++ chunks.map (fun d => (c, d))
    ∧ (srvRun st (chunks.map (fun d => (c, d)))).keepRunning = true
    ∧ (srvRun st (chunks.map (fun d => (c, d)))).registry = st.registry := by
  induction chunks with
  | nil => intro st c h1 _ _ _; simp [srvRun, h1]
  | cons d rest ih =>
    intro st c h1 h2 h3 h4
    have hd : d ≠ [] := h4 d (List.mem_cons_self d rest)
    have hrest : ∀ x ∈ rest, x ≠ [] := fun x hx => h4 x (List.mem_cons_of_mem d hx)
    rw [List.map_cons, srvRun_cons]
    rw [if_pos (by exact h1), srvDispatch_data st c d h2 h3 hd]
    have := ih { st with
          invocations := st.invocations ++ [(c, d)],
          echoLog := st.echoLog ++ [(c, d)] } c h1 h2 h3 hrest
    simpa using this

/-- C1 (echo fidelity): over any schedule of non-empty reads followed by the
zero-length read, the server's read callback writes back exactly the bytes
received — the echo log is extended by precisely the received chunks, each
unchanged and in order, all before the EOF is observed, and the
concatenation of echoed bytes equals the concatenation of received bytes. -/
theorem echo_fidelity (chunks : List ByteSeq) (st : SrvState) (c : Nat)
    (hrun : st.keepRunning = true) (hreg : c ∈ st.registry) (hc : c ≠ 0)
    (hne : ∀ d ∈ chunks, d ≠ []) :
    (srvRun st (chunks.map (fun d => (c, d)) ++ [(c, [])])).echoLog
      = st.echoLog ++ chunks.map (fun d => (c, d))
    ∧ ((srvRun st (chunks.map (fun d => (c, d)) ++ [(c, [])])).echoLog.map Prod.snd).flatten
      = (st.echoLog.map Prod.snd).flatten ++ chunks.flatten := by
  obtain ⟨he, hk, hr⟩ := srv_echo_run chunks st c hrun hreg hc hne
  have hreg1 : c ∈ (srvRun st (chunks.map (fun d => (c, d)))).registry := by
    rw [hr]; exact hreg
  have hfin : srvRun st (chunks.map (fun d => (c, d)) ++ [(c, [])])
      = srvDispatch (srvRun st (chunks.map (fun d => (c, d)))) c [] := by
    rw [srvRun_append, srvRun_cons, hk]
    simp [srvRun_nil]
  rw [hfin, srvDispatch_eof _ c hreg1 hc]
  constructor
  · exact he
  · simp [he]

/-- Concrete instance of `echo_fidelity` on the accepted connection of the
demo server with two non-empty chunks. -/
theorem echo_fidelity_witness :
    (srvRun (srvAccept srvInit) ([[1, 2], [3]].map (fun d => (1, d)) ++ [(1, [])])).echoLog
      = (srvAccept srvInit).echoLog ++ [[1, 2], [3]].map (fun d => (1, d)) :=
  (echo_fidelity [[1, 2], [3]] (srvAccept srvInit) 1 (by decide) (by decide)
    (by decide) (by decide)).1

/-- C2 (client stop condition): the claimed behavior fails on the code.  At a
READABLE event delivering a non-empty 1-byte chunk while `bytes_sent = 42`
and `bytes_received` becomes `1` (so the counters differ), the handler sets
`keep_running` to `false` and the loop stops, because
`keep_running = not (data or ...)` is false whenever `data` is non-empty;
and at a READABLE event delivering the zero-length read (peer closed) while
no bytes have been received, the handler leaves `keep_running` true and the
loop continues.  Both outcomes contradict the claimed stop condition, while
agreeing with the code as written. -/
theorem client_stop_divergence :
    ((clientHandleEvent { clientInit with bytesSent := 42 } EVENT_READ [72]).keepRunning = false
      ∧ (clientHandleEvent { clientInit with bytesSent := 42 } EVENT_READ [72]).bytesReceived = 1
      ∧ (clientHandleEvent { clientInit with bytesSent := 42 } EVENT_READ [72]).bytesSent = 42)
    ∧ (clientHandleEvent { clientInit with bytesSent := 42 } EVENT_READ []).keepRunning = true := by
  decide

/-- C3 (EOF terminality): once a read on a registered connection yields zero
bytes while the loop is live, the connection is unregistered from the
selector and closed, and — whatever ready events arrive afterwards — the
dispatcher never invokes a handler for that channel again: the invocation
log gains no entry beyond the EOF invocation itself. -/
theorem eof_terminality (st : SrvState) (c : Nat) (evts : List (Nat × ByteSeq))
    (hrun : st.keepRunning = true) (hreg : c ∈ st.registry) (hc : c ≠ 0)
    (hnd : st.registry.Nodup) :
    c ∉ (srvRun st ((c, []) :: evts)).registry
    ∧ c ∈ (srvRun st ((c, []) :: evts)).closed
    ∧ (srvRun st ((c, []) :: evts)).invocations = st.invocations ++ [(c, [])]
    ∧ srvRun st ((c, []) :: evts) = srvDispatch st c [] := by
  have hstep : srvRun st ((c, []) :: evts) = srvRun (srvDispatch st c []) evts := by
    rw [srvRun_cons, hrun]; simp
  have hoff : (srvDispatch st c []).keepRunning = false := by
    rw [srvDispatch_eof st c hreg hc]
  have hall : srvRun st ((c, []) :: evts) = srvDispatch st c [] := by
    rw [hstep, srvRun_halted _ _ hoff]
  rw [hall, srvDispatch_eof st c hreg hc]
  refine ⟨?_, ?_, ?_, ?_⟩
  · simpa using hnd.not_mem_erase
  · simp
  · simp
  · rfl

/-- Concrete instance of `eof_terminality`: the demo server's accepted
connection receives EOF and is never dispatched to again, even though the
schedule offers it two more ready events. -/
theorem eof_terminality_witness :
    1 ∉ (srvRun (srvAccept srvInit) ((1, []) :: [(1, [7]), (1, [8])])).registry
    ∧ 1 ∈ (srvRun (srvAccept srvInit) ((1, []) :: [(1, [7]), (1, [8])])).closed
    ∧ (srvRun (srvAccept srvInit) ((1, []) :: [(1, [7]), (1, [8])])).invocations
        = (srvAccept srvInit).invocations ++ [(1, [])] :=
  match eof_terminality (srvAccept srvInit) 1 [(1, [7]), (1, [8])]
      (by decide) (by decide) (by decide) (by decide) with
  | ⟨h1, h2, h3, _⟩ => ⟨h1, h2, h3⟩

/-- Handling any event preserves the configuration in which the interest
mask is READ-only and the outgoing queue is empty. -/
theorem clientHandleEvent_readonly (st : ClientState) (mask : Nat) (d : ByteSeq)
    (h1 : st.interest = EVENT_READ) (h2 : st.outgoing = []) :
    (clientHandleEvent st mask d).interest = EVENT_READ
    ∧ (clientHandleEvent st mask d).outgoing = [] := by
  unfold clientHandleEvent
  cases hr : hasEvent mask EVENT_READ <;> cases hw : hasEvent mask EVENT_WRITE <;>
    simp [hr, hw, writeBranch, readBranch, h1, h2]

/-- Running the client loop from a READ-only state with an exhausted queue
never restores WRITE interest and never repopulates the queue. -/
theorem client_readonly_run : ∀ (evts : List CEvent) (st : ClientState),
    st.interest = EVENT_READ → st.outgoing = [] →
    (clientRun st evts).interest = EVENT_READ ∧ (clientRun st evts).outgoing = [] := by
  intro evts
  induction evts with
  | nil => intro st h1 h2; exact ⟨h1, h2⟩
  | cons e evts ih =>
    intro st h1 h2
    rw [clientRun_cons]
    by_cases hk : st.keepRunning = true
    · rw [if_pos hk]
      obtain ⟨j1, j2⟩ := clientHandleEvent_readonly st e.mask e.data h1 h2
      exact ih _ j1 j2
    · rw [if_neg hk]
      exact ih st h1 h2

/-- Handling any event preserves the invariant that READ-only interest is
only ever reached with an exhausted outgoing queue. -/
theorem clientHandleEvent_J (st : ClientState) (mask : Nat) (d : ByteSeq)
    (h : st.interest = EVENT_READ → st.outgoing = []) :
    (clientHandleEvent st mask d).interest = EVENT_READ
      → (clientHandleEvent st mask d).outgoing = [] := by
  unfold clientHandleEvent
  cases hr : hasEvent mask EVENT_READ <;> cases hw : hasEvent mask EVENT_WRITE <;>
    simp only [hr, hw, if_pos, if_neg, Bool.false_eq_true, if_false, if_true]
  · exact h
  · cases hg : st.outgoing.getLast? with
    | none =>
      have hnil : st.outgoing = [] := List.getLast?_eq_none_iff.mp hg
      simp [writeBranch, hg, hnil]
    | some x =>
      simp only [writeBranch, hg, readBranch]
      intro hint
      have := h hint
      rw [this] at hg
      simp at hg
  · simpa [readBranch] using h
  · cases hg : st.outgoing.getLast? with
    | none =>
      have hnil : st.outgoing = [] := List.getLast?_eq_none_iff.mp hg
      simp [writeBranch, readBranch, hg, hnil]
    | some x =>
      simp only [writeBranch, hg, readBranch]
      intro hint
      have := h hint
      rw [this] at hg
      simp at hg

/-- The invariant of `clientHandleEvent_J` holds along every run of the
client loop started from the initial client state. -/
theorem client_J_run : ∀ (evts : List CEvent) (st : ClientState),
    (st.interest = EVENT_READ → st.outgoing = []) →
    ((clientRun st evts).interest = EVENT_READ → (clientRun st evts).outgoing = []) := by
  intro evts
  induction evts with
  | nil => intro st h; exact h
  | cons e evts ih =>
    intro st h
    rw [clientRun_cons]
    by_cases hk : st.keepRunning = true
    · rw [if_pos hk]
      exact ih _ (clientHandleEvent_J st e.mask e.data h)
    · rw [if_neg hk]
      exact ih st h

/-- C4 (interest transition): the client socket starts with READ|WRITE
interest; the registration is modified to READ-only exactly at a WRITABLE
event whose outgoing queue is empty (a WRITABLE event with a non-empty
queue, or an event without the WRITABLE bit, leaves the interest mask
untouched); and once a run from the initial state has reached READ-only
interest, the interest mask never contains WRITABLE again no matter which
events are delivered later. -/
theorem client_interest_transition :
    clientInit.interest = EVENT_READ.lor EVENT_WRITE
    ∧ (∀ (st : ClientState) (mask : Nat) (d : ByteSeq),
        hasEvent mask EVENT_WRITE = true → st.outgoing = [] →
        (clientHandleEvent st mask d).interest = EVENT_READ)
    ∧ (∀ (st : ClientState) (mask : Nat) (d : ByteSeq),
        hasEvent mask EVENT_WRITE = false →
        (clientHandleEvent st mask d).interest = st.interest)
    ∧ (∀ (st : ClientState) (mask : Nat) (d : ByteSeq),
        st.outgoing ≠ [] → (clientHandleEvent st mask d).interest = st.interest)
    ∧ (∀ evts evts2 : List CEvent,
        (clientRun clientInit evts).interest = EVENT_READ →
        (clientRun clientInit (evts ++ evts2)).interest = EVENT_READ) := by
  refine ⟨rfl, ?_, ?_, ?_, ?_⟩
  · intro st mask d hw hout
    unfold clientHandleEvent
    cases hr : hasEvent mask EVENT_READ <;>
      simp [hr, hw, writeBranch, readBranch, hout]
  · intro st mask d hw
    unfold clientHandleEvent
    cases hr : hasEvent mask EVENT_READ <;> simp [hr, hw, readBranch]
  · intro st mask d hout
    unfold clientHandleEvent
    cases hg : st.outgoing.getLast? with
    | none => exact absurd (List.getLast?_eq_none_iff.mp hg) hout
    | some x =>
      cases hr : hasEvent mask EVENT_READ <;> cases hw : hasEvent mask EVENT_WRITE <;>
        simp [hr, hw, writeBranch, readBranch, hg]
  · intro evts evts2 hint
    have hout : (clientRun clientInit evts).outgoing = [] :=
      client_J_run evts clientInit (fun h => absurd h (by decide)) hint
    rw [clientRun_append]
    exact (client_readonly_run evts2 _ hint hout).1

/-- Concrete instance of `client_interest_transition`: a WRITABLE event on an
empty queue switches to READ-only, and the demo client, after three
WRITABLE events (two sends and the switch), stays READ-only through a
further event. -/
theorem client_interest_transition_witness :
    (clientHandleEvent { clientInit with outgoing := [] } EVENT_WRITE []).interest = EVENT_READ
    ∧ (clientRun clientInit
        ([⟨EVENT_WRITE, []⟩, ⟨EVENT_WRITE, []⟩, ⟨EVENT_WRITE, []⟩]
          ++ [⟨EVENT_WRITE, []⟩])).interest = EVENT_READ :=
  ⟨client_interest_transition.2.1 { clientInit with outgoing := [] } EVENT_WRITE []
      (by decide) rfl,
   client_interest_transition.2.2.2.2 [⟨EVENT_WRITE, []⟩, ⟨EVENT_WRITE, []⟩, ⟨EVENT_WRITE, []⟩]
      [⟨EVENT_WRITE, []⟩] (by decide)⟩

/-- Handling one event preserves the invariant that the loop flag is only
true while nothing has been received yet (a non-empty read clears the flag
in the same invocation that bumps the counter). -/
theorem clientHandleEvent_I (st : ClientState) (mask : Nat) (d : ByteSeq)
    (h : st.bytesReceived = 0) :
    (clientHandleEvent st mask d).keepRunning = true
      → (clientHandleEvent st mask d).bytesReceived = 0 := by
  unfold clientHandleEvent
  cases hr : hasEvent mask EVENT_READ <;> cases hw : hasEvent mask EVENT_WRITE <;>
    simp only [hr, hw, Bool.false_eq_true, if_false, if_true,
      writeBranch_keepRunning, writeBranch_bytesReceived]
  · intro _; exact h
  · intro _; exact h
  · cases d <;> simp [readBranch, h]
  · cases d <;> simp [readBranch, h]

/-- The invariant of `clientHandleEvent_I` holds along every run of the
client loop. -/
theorem client_I_run : ∀ (evts : List CEvent) (st : ClientState),
    (st.keepRunning = true → st.bytesReceived = 0) →
    ((clientRun st evts).keepRunning = true → (clientRun st evts).bytesReceived = 0) := by
  intro evts
  induction evts with
  | nil => intro st h; exact h
  | cons e evts ih =>
    intro st h
    rw [clientRun_cons]
    by_cases hk : st.keepRunning = true
    · rw [if_pos hk]
      exact ih _ (clientHandleEvent_I st e.mask e.data (h hk))
    · rw [if_neg hk]
      exact ih st h

/-- C5 (bounded termination): in the single-shot demo, if the client has
received N > 0 echoed bytes by the end of its event schedule, its
keep-running flag is false (the client loop has stopped); and once the
server observes the resulting zero-length read on its live, registered
connection, its keep-running flag is false and stays false for the rest of
its schedule (the server loop stops too). -/
theorem bounded_termination (evts : List CEvent) (N : Nat)
    (sst : SrvState) (c : Nat) (sevts : List (Nat × ByteSeq))
    (hN : 0 < N) (hrecv : (clientRun clientInit evts).bytesReceived = N)
    (hsrun : sst.keepRunning = true) (hsreg : c ∈ sst.registry) (hsc : c ≠ 0) :
    (clientRun clientInit evts).keepRunning = false
    ∧ (srvRun sst ((c, []) :: sevts)).keepRunning = false := by
  constructor
  · cases hk : (clientRun clientInit evts).keepRunning with
    | false => rfl
    | true =>
      have h0 := client_I_run evts clientInit (fun _ => rfl) hk
      rw [hrecv] at h0
      exact absurd h0 (Nat.pos_iff_ne_zero.mp hN)
  · have hstep : srvRun sst ((c, []) :: sevts) = srvRun (srvDispatch sst c []) sevts := by
      rw [srvRun_cons, hsrun]; simp
    have hoff : (srvDispatch sst c []).keepRunning = false := by
      rw [srvDispatch_eof sst c hsreg hsc]
    rw [hstep, srvRun_halted _ _ hoff]
    exact hoff

/-- Concrete instance of `bounded_termination`: one echoed byte received by
the client, then EOF at the server's accepted connection. -/
theorem bounded_termination_witness :
    (clientRun clientInit [⟨EVENT_READ, [7]⟩]).keepRunning = false
    ∧ (srvRun (srvAccept srvInit) ((1, []) :: [(1, [9])])).keepRunning = false :=
  bounded_termination [⟨EVENT_READ, [7]⟩] 1 (srvAccept srvInit) 1 [(1, [9])]
    (by decide) (by decide) (by decide) (by decide) (by decide)

/-- C6 (transmission order): on a WRITABLE event with a non-empty outgoing
queue the client pops and sends the LAST element of the list, so the demo's
two-element queue `[b'It will be repeated.', b'This is the message.  ']` is
transmitted in reverse of its list order: first `b'This is the message.  '`,
then `b'It will be repeated.'`. -/
theorem transmission_order :
    (∀ (st : ClientState) (mask : Nat) (d : ByteSeq) (l : List ByteSeq) (x : ByteSeq),
        hasEvent mask EVENT_WRITE = true → st.outgoing = l ++ [x] →
        (clientHandleEvent st mask d).sentLog = st.sentLog ++ [x]
        ∧ (clientHandleEvent st mask d).outgoing = l
        ∧ (clientHandleEvent st mask d).bytesSent = st.bytesSent + x.length)
    ∧ (clientRun clientInit [⟨EVENT_WRITE, []⟩, ⟨EVENT_WRITE, []⟩]).sentLog
        = [msg_message, msg_repeated] := by
  constructor
  · intro st mask d l x hw hq
    unfold clientHandleEvent
    cases hr : hasEvent mask EVENT_READ <;>
      simp [hr, hw, writeBranch, readBranch, hq, List.getLast?_concat, List.dropLast_concat]
  · decide

/-- Concrete instance of the universally quantified part of
`transmission_order`, at the demo's initial state. -/
theorem transmission_order_witness :
    (clientHandleEvent clientInit EVENT_WRITE []).sentLog = clientInit.sentLog ++ [msg_message]
    ∧ (clientHandleEvent clientInit EVENT_WRITE []).outgoing = [msg_repeated]
    ∧ (clientHandleEvent clientInit EVENT_WRITE []).bytesSent
        = clientInit.bytesSent + msg_message.length :=
  transmission_order.1 clientInit EVENT_WRITE [] [msg_repeated] msg_message (by decide) rfl

/-- A channel is registered exactly when some table entry carries it. -/
theorem SelReg.isRegistered_iff {α : Type} [DecidableEq α] (s : SelReg α) (c : α) :
    s.isRegistered c = true ↔ ∃ p ∈ s.table, p.1 = c := by
  simp [SelReg.isRegistered]

/-- A successful `register` leaves the channel registered. -/
theorem SelReg.register_ok {α : Type} [DecidableEq α] (s s1 : SelReg α) (c : α) (m : Nat)
    (h : s.register c m = Except.ok s1) : s1.isRegistered c = true := by
  unfold SelReg.register at h
  by_cases hr : s.isRegistered c = true
  · rw [if_pos hr] at h; cases h
  · rw [if_neg hr] at h
    cases h
    rw [SelReg.isRegistered_iff]
    exact ⟨(c, m), List.mem_cons_self _ _, rfl⟩

/-- Any Selector operation other than unregistering the channel itself
keeps a registered channel registered. -/
theorem SelReg.isRegistered_applyOp {α : Type} [DecidableEq α] (s : SelReg α) (c : α)
    (op : SelOp α) (hop : op ≠ SelOp.unregOp c) (h : s.isRegistered c = true) :
    (s.applyOp op).isRegistered c = true := by
  obtain ⟨p, hp, hpc⟩ := (SelReg.isRegistered_iff s c).mp h
  cases op with
  | regOp c2 m =>
    simp only [SelReg.applyOp, SelReg.register]
    by_cases hr : s.isRegistered c2 = true
    · simp only [if_pos hr]; exact h
    · simp only [if_neg hr]
      rw [SelReg.isRegistered_iff]
      exact ⟨p, List.mem_cons_of_mem _ hp, hpc⟩
  | modOp c2 m =>
    simp only [SelReg.applyOp, SelReg.modify]
    by_cases hr : s.isRegistered c2 = true
    · simp only [if_pos hr]
      rw [SelReg.isRegistered_iff]
      by_cases hc2 : p.1 = c2
      · exact ⟨(c2, m), List.mem_map.mpr ⟨p, hp, by simp [hc2]⟩, by rw [← hc2, hpc]⟩
      · exact ⟨p, List.mem_map.mpr ⟨p, hp, by simp [hc2]⟩, hpc⟩
    · simp only [if_neg hr]; exact h
  | unregOp c2 =>
    have hne : c2 ≠ c := fun he => hop (by rw [he])
    simp only [SelReg.applyOp, SelReg.unregister]
    by_cases hr : s.isRegistered c2 = true
    · simp only [if_pos hr]
      rw [SelReg.isRegistered_iff]
      refine ⟨p, List.mem_filter.mpr ⟨hp, ?_⟩, hpc⟩
      simp [hpc, hne.symm]
    · simp only [if_neg hr]; exact h

/-- A registered channel stays registered across any sequence of Selector
operations that never unregisters it. -/
theorem SelReg.isRegistered_applyOps {α : Type} [DecidableEq α] :
    ∀ (ops : List (SelOp α)) (s : SelReg α) (c : α),
    (∀ op ∈ ops, op ≠ SelOp.unregOp c) → s.isRegistered c = true →
    (s.applyOps ops).isRegistered c = true := by
  intro ops
  induction ops with
  | nil => intro s c _ h; exact h
  | cons op ops ih =>
    intro s c hops h
    have h1 := SelReg.isRegistered_applyOp s c op (hops op (List.mem_cons_self op ops)) h
    exact ih (s.applyOp op) c (fun o ho => hops o (List.mem_cons_of_mem op ho)) h1

/-- C7 (registration uniqueness): after a successful `register(C, ...)`,
calling `register(C, ...)` again — with any sequence of other Selector
calls in between, none of which is `unregister(C)` — fails with
`DuplicateRegistration`. -/
theorem registration_uniqueness {α : Type} [DecidableEq α] (s s1 : SelReg α) (c : α)
    (m m2 : Nat) (ops : List (SelOp α))
    (hok : s.register c m = Except.ok s1)
    (hops : ∀ op ∈ ops, op ≠ SelOp.unregOp c) :
    (s1.applyOps ops).register c m2 = Except.error SelErr.DuplicateRegistration := by
  have h1 : s1.isRegistered c = true := SelReg.register_ok s s1 c m hok
  have h2 := SelReg.isRegistered_applyOps ops s1 c hops h1
  unfold SelReg.register
  rw [if_pos h2]

/-- Concrete instance of `registration_uniqueness`: channel 5 is registered
into the empty table, channel 7 is registered and 5 modified in between,
and re-registering 5 fails. -/
theorem registration_uniqueness_witness :
    (SelReg.applyOps (⟨[(5, 3)]⟩ : SelReg Nat) [SelOp.regOp 7 1, SelOp.modOp 5 2]).register 5 1
      = Except.error SelErr.DuplicateRegistration :=
  registration_uniqueness ⟨[]⟩ ⟨[(5, 3)]⟩ 5 3 1 [SelOp.regOp 7 1, SelOp.modOp 5 2]
    rfl (by decide)

/-- C8 (unregister of an absent channel): `unregister(C)` on a Selector in
which C is not currently registered fails with `NotRegistered`. -/
theorem unregister_not_registered {α : Type} [DecidableEq α] (s : SelReg α) (c : α)
    (h : s.isRegistered c = false) :
    s.unregister c = Except.error SelErr.NotRegistered := by
  unfold SelReg.unregister
  rw [if_neg]
  simp [h]

/-- Concrete instance of `unregister_not_registered`: unregistering channel 3
from the empty table fails. -/
theorem unregister_not_registered_witness :
    (⟨[]⟩ : SelReg Nat).unregister 3 = Except.error SelErr.NotRegistered :=
  unregister_not_registered (⟨[]⟩ : SelReg Nat) 3 (by decide)

/-- C9 (read-before-write ordering): when one selector result carries both
the READABLE and WRITABLE bits, the client executes the read branch first:
`bytes_received` is updated from the delivered data, and the
loop-continuation flag is computed with the value of `bytes_sent` from
BEFORE the send performed in the same iteration — even though that same
invocation then pops and sends the last queued message, growing
`bytes_sent` by its length. -/
theorem client_read_before_write (st : ClientState) (d : ByteSeq)
    (l : List ByteSeq) (x : ByteSeq) (hq : st.outgoing = l ++ [x]) :
    (clientHandleEvent st (EVENT_READ.lor EVENT_WRITE) d).bytesReceived
        = (if d.isEmpty then st.bytesReceived else st.bytesReceived + d.length)
    ∧ (clientHandleEvent st (EVENT_READ.lor EVENT_WRITE) d).bytesSent
        = st.bytesSent + x.length
    ∧ (clientHandleEvent st (EVENT_READ.lor EVENT_WRITE) d).keepRunning
        = !(!d.isEmpty
            || ((if d.isEmpty then st.bytesReceived else st.bytesReceived + d.length) != 0
                && (if d.isEmpty then st.bytesReceived else st.bytesReceived + d.length)
                    == st.bytesSent)) := by
  have hr : hasEvent (EVENT_READ.lor EVENT_WRITE) EVENT_READ = true := rfl
  have hw : hasEvent (EVENT_READ.lor EVENT_WRITE) EVENT_WRITE = true := rfl
  unfold clientHandleEvent
  rw [hr, hw]
  simp only [if_true, writeBranch_bytesReceived, writeBranch_keepRunning]
  refine ⟨rfl, ?_, rfl⟩
  show (writeBranch (readBranch st d)).bytesSent = st.bytesSent + x.length
  have hout : (readBranch st d).outgoing = l ++ [x] := by rw [readBranch_outgoing, hq]
  unfold writeBranch
  rw [hout, List.getLast?_concat]
  rw [readBranch_bytesSent]

/-- Concrete instance of `client_read_before_write`: with 20 bytes received,
20 bytes sent, and one 20-byte message still queued, a combined
READABLE|WRITABLE event with an empty read stops the loop (the flag is
computed from the pre-send value 20, which the received counter matches)
even though `bytes_sent` becomes 40 in the very same invocation. -/
theorem client_read_before_write_witness :
    (clientHandleEvent { clientInit with bytesReceived := 20, bytesSent := 20, outgoing := [msg_repeated] } (EVENT_READ.lor EVENT_WRITE) []).bytesSent = 40
    ∧ (clientHandleEvent { clientInit with bytesReceived := 20, bytesSent := 20, outgoing := [msg_repeated] } (EVENT_READ.lor EVENT_WRITE) []).keepRunning = false := by
  have h := client_read_before_write { clientInit with bytesReceived := 20, bytesSent := 20, outgoing := [msg_repeated] } [] [] msg_repeated rfl
  exact ⟨by rw [h.2.1]; decide, by rw [h.2.2]; decide⟩

/-- Per-event case analysis of the received-bytes counter: it is unchanged
or grows by the length of the delivered data. -/
theorem clientHandleEvent_bytesReceived_cases (st : ClientState) (mask : Nat) (d : ByteSeq) :
    (clientHandleEvent st mask d).bytesReceived = st.bytesReceived
    ∨ (clientHandleEvent st mask d).bytesReceived = st.bytesReceived + d.length := by
  unfold clientHandleEvent
  cases hr : hasEvent mask EVENT_READ <;> cases hw : hasEvent mask EVENT_WRITE <;>
    cases d <;> simp [hr, hw, readBranch, writeBranch_bytesReceived]

/-- Per-event case analysis of the sent-bytes counter: it is unchanged or
grows by the length of the message popped from the end of the queue. -/
theorem clientHandleEvent_bytesSent_cases (st : ClientState) (mask : Nat) (d : ByteSeq) :
    (clientHandleEvent st mask d).bytesSent = st.bytesSent
    ∨ ∃ x, st.outgoing.getLast? = some x
        ∧ (clientHandleEvent st mask d).bytesSent = st.bytesSent + x.length := by
  unfold clientHandleEvent
  cases hr : hasEvent mask EVENT_READ <;> cases hw : hasEvent mask EVENT_WRITE
  · simp [hr, hw]
  · cases hg : st.outgoing.getLast? with
    | none => simp [hr, hw, writeBranch, hg]
    | some x => exact Or.inr ⟨x, rfl, by simp [hr, hw, writeBranch, hg]⟩
  · simp [hr, hw, readBranch]
  · cases hg : st.outgoing.getLast? with
    | none => simp [hr, hw, writeBranch, readBranch, hg]
    | some x => exact Or.inr ⟨x, rfl, by simp [hr, hw, writeBranch, readBranch, hg]⟩

/-- Both counters are non-decreasing along any run of the client loop. -/
theorem clientRun_counters_le : ∀ (evts : List CEvent) (st : ClientState),
    st.bytesSent ≤ (clientRun st evts).bytesSent
    ∧ st.bytesReceived ≤ (clientRun st evts).bytesReceived := by
  intro evts
  induction evts with
  | nil => intro st; exact ⟨le_refl _, le_refl _⟩
  | cons e evts ih =>
    intro st
    rw [clientRun_cons]
    by_cases hk : st.keepRunning = true
    · rw [if_pos hk]
      have h1 : st.bytesSent ≤ (clientHandleEvent st e.mask e.data).bytesSent := by
        rcases clientHandleEvent_bytesSent_cases st e.mask e.data with h | ⟨x, _, h⟩ <;>
          simp [h]
      have h2 : st.bytesReceived ≤ (clientHandleEvent st e.mask e.data).bytesReceived := by
        rcases clientHandleEvent_bytesReceived_cases st e.mask e.data with h | h <;>
          simp [h]
      exact ⟨le_trans h1 (ih _).1, le_trans h2 (ih _).2⟩
    · rw [if_neg hk]; exact ih st

/-- C10 (counter monotonicity): `bytes_sent` and `bytes_received` start at
zero; each handled event leaves each counter unchanged or increases it by
the length of the data received (respectively of the message sent); and
along any run of the loop neither counter ever decreases. -/
theorem counter_monotonicity :
    clientInit.bytesSent = 0 ∧ clientInit.bytesReceived = 0
    ∧ (∀ (st : ClientState) (mask : Nat) (d : ByteSeq),
        (clientHandleEvent st mask d).bytesReceived = st.bytesReceived
        ∨ (clientHandleEvent st mask d).bytesReceived = st.bytesReceived + d.length)
    ∧ (∀ (st : ClientState) (mask : Nat) (d : ByteSeq),
        (clientHandleEvent st mask d).bytesSent = st.bytesSent
        ∨ ∃ x, st.outgoing.getLast? = some x
            ∧ (clientHandleEvent st mask d).bytesSent = st.bytesSent + x.length)
    ∧ (∀ (st : ClientState) (evts : List CEvent),
        st.bytesSent ≤ (clientRun st evts).bytesSent
        ∧ st.bytesReceived ≤ (clientRun st evts).bytesReceived) :=
  ⟨rfl, rfl, clientHandleEvent_bytesReceived_cases, clientHandleEvent_bytesSent_cases,
    fun st evts => clientRun_counters_le evts st⟩
